import Mathlib

/-!
# Verification of the shlurp repository

Shallow embedding of the core of `utils.py`, `github_scraper.py` and
`llm_summarizer.py`, together with theorems settling the specification
claims about this code.

Conventions used throughout:
* Python strings are Lean `String`s; `len` is `String.length` (both count
  Unicode code points).
* Python `dict.get(key, default)` on possibly-missing keys is modelled with
  `Option`; a JSON value that may be absent, `null`, or a string is
  `Option (Option String)` (`none` = key absent, `some none` = null).
* Python integer division `//` on non-negative values is `Nat` division.
-/

namespace Shlurp

/-- Whitespace as recognized by Python `str.strip()` / `str.isspace()` for the
ASCII range (space, tab, newline, carriage return, vertical tab, form feed). -/
def pyIsSpace (c : Char) : Bool :=
  c = ' ' || c = '\t' || c = '\n' || c = '\r' || c = '\x0b' || c = '\x0c'

/-- Python `sep.join(parts)`: the parts concatenated with `sep` between
consecutive parts, the empty string for an empty list. -/
def pyJoin (sep : String) : List String → String
  | [] => ""
  | [s] => s
  | s :: t :: rest => s ++ sep ++ pyJoin sep (t :: rest)

/-! ## utils.py -/

/-- `utils.estimate_tokens` (utils.py:75): `len(text) // 4`. -/
def estimate_tokens (text : String) : Nat :=
  text.length / 4

/-- Helper for `split_into_chunks`: the groups `items[i:i+k]` for
`i = 0, k, 2k, ...` produced by the loop in utils.py:47-48, assuming a
positive step `k`. The extra `Nat` is fuel making the recursion structural;
each step consumes at least one element, so any fuel ≥ `items.length`
computes the full slicing (`split_into_chunks` passes exactly the length). -/
def splitChunksGo (k : Nat) : Nat → List α → List (List α)
  | _, [] => []
  | 0, _ :: _ => []
  | fuel + 1, a :: items =>
      (a :: items.take (k - 1)) :: splitChunksGo k fuel (items.drop (k - 1))

/-- `utils.split_into_chunks` (utils.py:44-49). Python `range(0, n, chunk_size)`
raises `ValueError` on a zero step, modelled by `none`; for a positive
`chunk_size` the function returns the consecutive slices of that size. -/
def split_into_chunks (items : List α) (chunk_size : Nat) : Option (List (List α)) :=
  if chunk_size = 0 then none else some (splitChunksGo chunk_size items.length items)

/-- A Python `datetime` value as far as `strftime` needs it here. -/
structure PyDateTime where
  year : Nat
  month : Nat
  day : Nat
  hour : Nat
  minute : Nat
deriving DecidableEq

/-- Zero-pad a decimal rendering of `v` to width `w` (Python `strftime`
field rendering). -/
def padZero (w : Nat) (v : Nat) : String :=
  ⟨List.replicate (w - (Nat.repr v).length) '0'⟩ ++ Nat.repr v

/-- `datetime.strftime` for the fixed format string used in
`utils.format_datetime` (utils.py:56): `%Y-%m-%d %H:%M`. -/
def strftimeYmdHM (dt : PyDateTime) : String :=
  padZero 4 dt.year ++ "-" ++ padZero 2 dt.month ++ "-" ++ padZero 2 dt.day
    ++ " " ++ padZero 2 dt.hour ++ ":" ++ padZero 2 dt.minute

/-- `utils.format_datetime` (utils.py:52-58). `datetime.fromisoformat` is
stdlib code external to this repository; it is passed as an oracle
`fromIso` returning `none` when parsing raises. The bare `except` returns
the original string on any failure. -/
def format_datetime (fromIso : String → Option PyDateTime) (dt_str : String) : String :=
  match fromIso (dt_str.replace "Z" "+00:00") with
  | some dt => strftimeYmdHM dt
  | none => dt_str

/-- A maximal run of `n` consecutive newlines, as rewritten by
`re.sub(r'\n\x7b3,\x7d', '\n\n', content)` (utils.py:67): runs of three or
more newlines become exactly two, shorter runs are kept (the regex is
greedy, so every match is a maximal newline run). -/
def emitNLRun (n : Nat) : List Char :=
  List.replicate (min n 2) '\n'

/-- Scanner for the newline-collapsing substitution: `n` counts the pending
newlines of the current maximal run, flushed through `emitNLRun` at the
first non-newline character or at the end of input. -/
def collapseNLGo : Nat → List Char → List Char
  | n, [] => emitNLRun n
  | n, c :: cs =>
    if c = '\n' then collapseNLGo (n + 1) cs
    else emitNLRun n ++ c :: collapseNLGo 0 cs

/-- `re.sub(r'\n\x7b3,\x7d', '\n\n', content)` (utils.py:67): every maximal
run of three or more consecutive newlines is replaced by exactly two. -/
def collapseNL (cs : List Char) : List Char :=
  collapseNLGo 0 cs

/-- Remove the trailing characters of `cs` satisfying `p` (the right half of
Python `str.strip()`). -/
def dropTrailingWhile (p : Char → Bool) (cs : List Char) : List Char :=
  cs.foldr (fun c acc => if acc.isEmpty && p c then [] else c :: acc) []

/-- Python `content.strip()` (utils.py:72): drop leading and trailing
whitespace. -/
def stripChars (cs : List Char) : List Char :=
  dropTrailingWhile pyIsSpace (cs.dropWhile pyIsSpace)

/-- `utils.clean_markdown_content` (utils.py:61-72). The guard `if not content`
returns `""` for a falsy argument; then newline runs of length ≥ 3 are
collapsed to two; the code-fence substitution
`re.sub(r'```(\w*)\n', r'```\1\n', content)` (utils.py:70) replaces every
match by the very text it matched and is therefore the identity on every
string, so it does not appear separately; finally the result is stripped. -/
def clean_markdown_content (content : String) : String :=
  if content = "" then ""
  else ⟨stripChars (collapseNL content.data)⟩

/-- `clean_markdown_content(x)` where `x` came from `dict.get` and may be
`None`: `if not content` also catches `None`, returning `""`. -/
def cleanOptContent : Option String → String
  | none => ""
  | some s => clean_markdown_content s

/-! ## github_scraper.py -/

/-- An issue object as returned by the issue-tracker API, with the fields
`GitHubScraper` reads. `pullRequestKey` records whether the JSON object
carries a `pull_request` key (the API conflates pull requests with issues);
`body` is `none` when the key is absent and `some none` when it is JSON
`null`; `updated_at`/`labels`/`assignees` keep Python truthiness visible
(`none`/empty values are falsy). -/
structure Issue where
  number : Nat
  title : String
  userLogin : String
  created_at : String
  updated_at : Option String
  labels : List String
  assignees : List String
  body : Option (Option String)
  commentCount : Nat
  pullRequestKey : Bool
deriving DecidableEq

/-- A comment object as read by `issues_to_markdown`; `comment.get('body', '')`
collapses an absent or `null` body to the empty rendering, so `body` is a
single `Option`. -/
structure CommentRec where
  userLogin : String
  created_at : String
  body : Option String
deriving DecidableEq

/-- Outcome of one pass through `GitHubScraper._make_request`
(github_scraper.py:38-56) for a response that has already arrived. -/
inductive ReqOutcome (P : Type) where
  | sleepThenRetry (sleepSeconds : Int) (url : String) (params : P)
  | raiseStatus (code : Nat)
  | success
  | headerError
deriving DecidableEq

/-- `response.raise_for_status()`: raises for a 4xx/5xx status code. -/
def raiseForStatus (status : Nat) : ReqOutcome P :=
  if 400 ≤ status then .raiseStatus status else .success

/-- One pass of `GitHubScraper._make_request` (github_scraper.py:38-56) after
the HTTP response arrived: a 403 whose `X-RateLimit-Remaining` header is `0`
computes `sleep_time = reset - int(time.time()) + 1` (`tRead` is the value
read from the clock) and, when positive, sleeps that long and retries the
same `url` and `params`; reading a missing `X-RateLimit-Reset` header would
raise a `KeyError` (`headerError`); every other path falls through to
`raise_for_status`. -/
def makeRequestStep (url : String) (params : P) (status : Nat)
    (remaining reset : Option Int) (tRead : Int) : ReqOutcome P :=
  if status = 403 then
    match remaining with
    | some r =>
      if r = 0 then
        match reset with
        | some resetTime =>
          let sleepTime := resetTime - tRead + 1
          if 0 < sleepTime then .sleepThenRetry sleepTime url params
          else raiseForStatus status
        | none => .headerError
      else raiseForStatus status
    | none => raiseForStatus status
  else raiseForStatus status

/-- One page of the paginated issue listing as consumed by
`GitHubScraper.fetch_issues`: whether requesting it fails (after the retry
budget), the returned issue objects, and the `Link` response header
(`none` = header absent, `some b` = header present and `b` = it contains
a rel-next marker). -/
structure IssuePage where
  requestFails : Bool
  items : List Issue
  link : Option Bool
deriving DecidableEq

/-- Python truthiness of the `max_issues: Optional[int]` argument:
`None` and `0` are falsy. -/
def optNatTruthy : Option Nat → Bool
  | none => false
  | some n => n != 0

/-- The pagination-stop test of github_scraper.py:95-100, applied after the
cap check: with a `Link` header, stop when the rel-next marker is absent;
without one, stop when the page (after pull-request filtering, since
`page_issues` was reassigned on line 85) has fewer than `per_page` items. -/
def linkSaysStop (link : Option Bool) (filteredLen : Nat) : Bool :=
  match link with
  | some hasNext => !hasNext
  | none => decide (filteredLen < 100)

/-- The `while True` pagination loop of `GitHubScraper.fetch_issues`
(github_scraper.py:67-106), reading successive pages from `pages` (a page
past the end of the list is an empty page, which stops the loop, so the
model recurses on the page list). In order: a request failure breaks with
the issues accumulated so far; an empty page breaks; pull-request entries
are filtered out; the accumulator is extended; if `max_issues` is truthy
and the accumulated count reached it, the accumulator is trimmed with
`issues[:max_issues]` and the loop breaks; finally the `Link`-header
stop test runs. -/
def fetchLoop (maxIssues : Option Nat) : List IssuePage → List Issue → List Issue
  | [], acc => acc
  | pg :: rest, acc =>
    if pg.requestFails then acc
    else if pg.items.isEmpty then acc
    else
      let filtered := pg.items.filter (fun i => !i.pullRequestKey)
      let acc2 := acc ++ filtered
      if optNatTruthy maxIssues && decide (maxIssues.getD 0 ≤ acc2.length) then
        acc2.take (maxIssues.getD 0)
      else if linkSaysStop pg.link filtered.length then acc2
      else fetchLoop maxIssues rest acc2

/-- `GitHubScraper.fetch_issues` (github_scraper.py:58-108). -/
def fetch_issues (pages : List IssuePage) (maxIssues : Option Nat) : List Issue :=
  fetchLoop maxIssues pages []

/-- `dict.get(key, default)` for the body field: the default is returned only
when the key is absent; a present key returns its value even when that
value is `None` or the empty string. -/
def pyGetBody (body : Option (Option String)) (default : String) : Option String :=
  match body with
  | none => some default
  | some v => v

/-- The fixed placeholder passed as default to `issue.get('body', ...)` in
github_scraper.py:155. -/
def noDescription : String := "No description provided."

/-- The markdown parts appended for the comments section of one issue
(github_scraper.py:162-169). -/
def commentParts (fromIso : String → Option PyDateTime) (comments : List CommentRec) :
    List String :=
  comments.flatMap (fun comment =>
    ["#### Comment by " ++ comment.userLogin ++ " ("
        ++ format_datetime fromIso comment.created_at ++ ")\n\n",
      cleanOptContent (some ((comment.body).getD "")) ++ "\n\n"])

/-- The markdown parts appended for a single issue by the loop body of
`GitHubScraper.issues_to_markdown` (github_scraper.py:132-172). Comment
fetching is network I/O, so the comments an issue number yields are passed
as the oracle `commentsOf`. -/
def issueParts (fromIso : String → Option PyDateTime)
    (commentsOf : Nat → List CommentRec) (withComments : Bool) (issue : Issue) :
    List String :=
  ["## Issue #" ++ Nat.repr issue.number ++ ": " ++ issue.title ++ "\n\n",
    "**Author:** " ++ issue.userLogin ++ "\n",
    "**Created:** " ++ format_datetime fromIso issue.created_at ++ "\n"]
  ++ (match issue.updated_at with
      | some u => if u = "" then [] else
          ["**Updated:** " ++ format_datetime fromIso u ++ "\n"]
      | none => [])
  ++ (if issue.labels.isEmpty then [] else
        ["**Labels:** " ++ pyJoin ", " issue.labels ++ "\n"])
  ++ (if issue.assignees.isEmpty then [] else
        ["**Assignees:** " ++ pyJoin ", " issue.assignees ++ "\n"])
  ++ ["\n", "### Description\n\n",
      cleanOptContent (pyGetBody issue.body noDescription) ++ "\n\n"]
  ++ (if withComments && decide (0 < issue.commentCount) then
        match commentsOf issue.number with
        | [] => []
        | c :: cl => "### Comments\n\n" :: commentParts fromIso (c :: cl)
      else [])
  ++ ["---\n\n"]

/-- `GitHubScraper.issues_to_markdown` (github_scraper.py:121-174): the
header parts followed by each issue's parts, joined with `''.join`.
`nowStr` is the `time.strftime('%Y-%m-%dT%H:%M:%SZ')` value fed through
`format_datetime` on line 125. -/
def issues_to_markdown (fromIso : String → Option PyDateTime)
    (commentsOf : Nat → List CommentRec) (nowStr : String)
    (issues : List Issue) (owner repo : String) (withComments : Bool) : String :=
  String.join
    (["# GitHub Issues for " ++ owner ++ "/" ++ repo ++ "\n\n",
      "*Generated on " ++ format_datetime fromIso nowStr ++ "*\n\n",
      "**Total Open Issues:** " ++ Nat.repr issues.length ++ "\n\n",
      "---\n\n"]
      ++ issues.flatMap (issueParts fromIso commentsOf withComments))

/-- Boolean substring test on character lists (used to state what a rendered
document contains). -/
def hasSubstr (needle : List Char) : List Char → Bool
  | [] => needle.isEmpty
  | c :: rest => needle.isPrefixOf (c :: rest) || hasSubstr needle rest

/-! ## llm_summarizer.py -/

/-- The literal part of the issue-block boundary pattern
`(?=## Issue #\d+:)` (llm_summarizer.py:97). -/
def issueHeaderLit : List Char := "## Issue #".data

/-- Whether the lookahead `## Issue #\d+:` matches at the head of `cs`
(`\d` restricted to ASCII digits, the only digits this renderer emits). -/
def matchesIssueHeader (cs : List Char) : Bool :=
  issueHeaderLit.isPrefixOf cs &&
    (let rest := cs.drop issueHeaderLit.length
     let ds := rest.takeWhile (fun c => c.isDigit)
     !ds.isEmpty && decide ((rest.drop ds.length).head? = some ':'))

/-- `re.split(r'(?=## Issue #\d+:)', content)`: the input is cut before every
position where the lookahead matches (the match is zero-width, so no
characters are consumed); a match at position 0 yields a leading empty
segment, exactly as `re.split` does. `acc` holds the current segment
reversed. -/
def splitSegsAux : List Char → List Char → List (List Char)
  | [], acc => [acc.reverse]
  | c :: cs, acc =>
    if matchesIssueHeader (c :: cs) then acc.reverse :: splitSegsAux cs [c]
    else splitSegsAux cs (c :: acc)

/-- `if i.strip()` (llm_summarizer.py:98): a segment is kept when it contains
a non-whitespace character. -/
def keepSegment (cs : List Char) : Bool :=
  cs.any (fun c => !pyIsSpace c)

/-- Lines 97-98 of llm_summarizer.py: split `content` at issue-header
boundaries and drop whitespace-only segments. -/
def issueSegments (content : String) : List String :=
  ((splitSegsAux content.data []).filter keepSegment).map (fun l => (⟨l⟩ : String))

/-- The greedy packing loop of `LLMSummarizer._chunk_content`
(llm_summarizer.py:100-116): `cur` is `current_chunk` (in order) and
`curSize` is `current_size`; when adding the next issue would push the
running estimate over `maxTokens` and the current chunk is non-empty, the
current chunk is closed with `'\n'.join` and a new one starts with that
issue; the trailing non-empty chunk is flushed at the end. -/
def chunkLoop (maxTokens : Nat) : List String → List String → Nat → List String
  | [], cur, _ => if cur.isEmpty then [] else [pyJoin "\n" cur]
  | issue :: rest, cur, curSize =>
    if decide (maxTokens < curSize + estimate_tokens issue) && !cur.isEmpty then
      pyJoin "\n" cur :: chunkLoop maxTokens rest [issue] (estimate_tokens issue)
    else
      chunkLoop maxTokens rest (cur ++ [issue]) (curSize + estimate_tokens issue)

/-- `LLMSummarizer._chunk_content` (llm_summarizer.py:87-117); `maxTokens` is
the `max_tokens` parameter (Python default 100000). A document whose
estimate fits the budget is returned whole; otherwise it is split at
issue-header boundaries and greedily packed. -/
def chunk_content (content : String) (maxTokens : Nat) : List String :=
  if estimate_tokens content ≤ maxTokens then [content]
  else chunkLoop maxTokens (issueSegments content) [] 0

/-- `"=" * 50` (llm_summarizer.py:81). -/
def eqSignBar : String := ⟨List.replicate 50 '='⟩

/-- An apostrophe (the system prompt contains one). -/
def apos : String := ⟨[Char.ofNat 39]⟩

/-- `LLMSummarizer._create_system_prompt` (llm_summarizer.py:59-76), verbatim
including the trailing spaces on its second line and the skipped item 3. -/
def create_system_prompt : String :=
  "You are an expert at analyzing GitHub issues and providing actionable summaries.\n        \nYour task is to analyze the provided GitHub issues and create a comprehensive summary that includes:\n\n1. **Overview**: Brief summary of the repository"
    ++ apos
    ++ "s issue landscape\n2. **Priority Analysis**: Identify high-priority issues based on:\n   - Number of comments/engagement\n   - Labels (critical, bug, security, etc.)\n   - Age of issues\n   - User impact\n\n4. **Common Themes**: Identify recurring problems or requests\n5. **Recommendations**: Suggest actions for maintainers\n\nFormat your response in clear markdown with appropriate headers and bullet points.\nBe concise but comprehensive. Focus on actionable insights."

/-- `LLMSummarizer._create_user_prompt` (llm_summarizer.py:78-85). -/
def create_user_prompt (issues_content repo_info : String) : String :=
  "Please analyze these GitHub issues" ++ repo_info ++ ":\n\n"
    ++ eqSignBar ++ "\n" ++ issues_content ++ "\n" ++ eqSignBar ++ "\n\n"
    ++ "Provide a comprehensive summary following the guidelines in your instructions."

/-- The position annotation `f" (Part {i}/{n}{repo_info})"`
(llm_summarizer.py:171). -/
def partLabel (i n : Nat) (repo_info : String) : String :=
  " (Part " ++ Nat.repr i ++ "/" ++ Nat.repr n ++ repo_info ++ ")"

/-- The final reduction prompt of llm_summarizer.py:181-187, verbatim
including the indentation spaces inside the f-string. -/
def finalReducePrompt (repo_info combined_summaries : String) : String :=
  "Please create a final, consolidated summary from these partial summaries of GitHub issues"
    ++ repo_info
    ++ ".\n            \nCombine the insights from all parts into a single, coherent summary following the same structure as before.\nEliminate any redundancy and provide the most important insights.\n\nPartial Summaries:\n"
    ++ combined_summaries

/-- One `_call_llm` invocation: the system and user prompts it was given. -/
structure LLMCall where
  system : String
  user : String
deriving DecidableEq

/-- `LLMSummarizer.summarize_content` (llm_summarizer.py:150-189),
instrumented: the LLM backend is the oracle `llm` (system prompt → user
prompt → completion) and the returned list records every `_call_llm`
invocation in order. `maxTokens` is passed through to `_chunk_content`
(Python default 100000). One chunk: a single direct call. Several: one
call per chunk in order, each annotated with its position, then one
reduction call over the partial summaries joined by `"\n\n---\n\n"`. -/
def summarize_content (llm : String → String → String) (maxTokens : Nat)
    (content repo_info : String) : String × List LLMCall :=
  let system_prompt := create_system_prompt
  let chunks := chunk_content content maxTokens
  if chunks.length = 1 then
    let user_prompt := create_user_prompt (chunks.headD "") repo_info
    (llm system_prompt user_prompt, [⟨system_prompt, user_prompt⟩])
  else
    let chunkCalls := chunks.enum.map (fun p =>
      (⟨system_prompt,
        create_user_prompt p.2 (partLabel (p.1 + 1) chunks.length repo_info)⟩ : LLMCall))
    let chunk_summaries := chunkCalls.map (fun c => llm c.system c.user)
    let combined_summaries := pyJoin "\n\n---\n\n" chunk_summaries
    let final_prompt := finalReducePrompt repo_info combined_summaries
    (llm system_prompt final_prompt, chunkCalls ++ [⟨system_prompt, final_prompt⟩])

/-! ## Helper lemmas -/

lemma splitChunksGo_spec {α : Type} (k : Nat) (hk : 0 < k) :
    ∀ (fuel : Nat) (items : List α), items.length ≤ fuel →
      (splitChunksGo k fuel items).length = (items.length + k - 1) / k
        ∧ (∀ c ∈ splitChunksGo k fuel items, c.length ≤ k)
        ∧ (splitChunksGo k fuel items).flatten = items := by
  intro fuel
  induction fuel with
  | zero =>
    intro items hlen
    have : items = [] := List.eq_nil_of_length_eq_zero (Nat.le_zero.mp hlen)
    subst this
    refine ⟨?_, by simp [splitChunksGo], by simp [splitChunksGo]⟩
    simp only [splitChunksGo, List.length_nil, Nat.zero_add]
    exact (Nat.div_eq_of_lt (by omega)).symm
  | succ fuel ih =>
    intro items hlen
    match items with
    | [] =>
      refine ⟨?_, by simp [splitChunksGo], by simp [splitChunksGo]⟩
      simp only [splitChunksGo, List.length_nil, Nat.zero_add]
      exact (Nat.div_eq_of_lt (by omega)).symm
    | a :: its =>
      have hdrop : (its.drop (k - 1)).length ≤ fuel := by
        rw [List.length_drop]
        simp only [List.length_cons] at hlen
        omega
      obtain ⟨ihl, ihb, ihf⟩ := ih (its.drop (k - 1)) hdrop
      refine ⟨?_, ?_, ?_⟩
      · simp only [splitChunksGo, List.length_cons, ihl, List.length_drop]
        rcases Nat.lt_or_ge its.length k with hsmall | hbig
        · have h1 : its.length - (k - 1) + k - 1 < k := by omega
          rw [Nat.div_eq_of_lt h1,
            Nat.div_eq_of_lt_le (m := its.length + 1 + k - 1) (k := 1) (by omega) (by omega)]
        · have h1 : its.length - (k - 1) + k - 1 = its.length := by omega
          have h2 : its.length + 1 + k - 1 = its.length + k := by omega
          rw [h1, h2, Nat.add_div_right _ hk]
      · intro c hc
        simp only [splitChunksGo, List.mem_cons] at hc
        rcases hc with rfl | hc
        · simp only [List.length_cons, List.length_take]
          omega
        · exact ihb c hc
      · simp only [splitChunksGo, List.flatten_cons, ihf, List.cons_append,
          List.take_append_drop]

/-- The uncapped pagination loop only ever appends to its accumulator. -/
lemma fetchLoop_none_acc_prefix :
    ∀ (pages : List IssuePage) (acc : List Issue),
      ∃ t, fetchLoop none pages acc = acc ++ t := by
  intro pages
  induction pages with
  | nil => intro acc; exact ⟨[], by simp [fetchLoop]⟩
  | cons pg rest ih =>
    intro acc
    simp only [fetchLoop, optNatTruthy, Bool.false_and, Bool.false_eq_true, if_false]
    split
    · exact ⟨[], by simp⟩
    · split
      · exact ⟨[], by simp⟩
      · split
        · exact ⟨pg.items.filter (fun i => !i.pullRequestKey), rfl⟩
        · obtain ⟨t, ht⟩ := ih (acc ++ pg.items.filter (fun i => !i.pullRequestKey))
          exact ⟨pg.items.filter (fun i => !i.pullRequestKey) ++ t,
            by rw [ht, List.append_assoc]⟩

/-- Core of the cap behavior: a run of the pagination loop with a positive
cap `m` (starting below the cap) returns exactly the first `m` elements of
the uncapped run — the loop breaks with `issues[:max_issues]` at the first
page where the accumulated count reaches the cap, and before that point the
two runs coincide. -/
lemma fetchLoop_cap_take (m : Nat) (hm : 0 < m) :
    ∀ (pages : List IssuePage) (acc : List Issue), acc.length < m →
      fetchLoop (some m) pages acc = (fetchLoop none pages acc).take m := by
  intro pages
  induction pages with
  | nil =>
    intro acc hacc
    simp only [fetchLoop]
    rw [List.take_of_length_le (by omega)]
  | cons pg rest ih =>
    intro acc hacc
    have hopt : (m != 0) = true := by
      simp only [bne_iff_ne, ne_eq]
      omega
    simp only [fetchLoop, optNatTruthy, hopt, Bool.true_and, Bool.false_and,
      Bool.false_eq_true, if_false, Option.getD_some]
    split
    · rw [List.take_of_length_le (by omega)]
    · split
      · rw [List.take_of_length_le (by omega)]
      · by_cases hcap :
            m ≤ (acc ++ pg.items.filter (fun i => !i.pullRequestKey)).length
        · rw [if_pos (by simpa using hcap)]
          by_cases hstop :
              linkSaysStop pg.link (pg.items.filter (fun i => !i.pullRequestKey)).length = true
          · rw [if_pos hstop]
          · rw [if_neg hstop]
            obtain ⟨t, ht⟩ :=
              fetchLoop_none_acc_prefix rest (acc ++ pg.items.filter (fun i => !i.pullRequestKey))
            rw [ht]
            nth_rewrite 2 [List.take_append_eq_append_take]
            rw [Nat.sub_eq_zero_of_le hcap, List.take_zero, List.append_nil]
        · rw [if_neg (by simpa using hcap)]
          by_cases hstop :
              linkSaysStop pg.link (pg.items.filter (fun i => !i.pullRequestKey)).length = true
          · rw [if_pos hstop, if_pos hstop, List.take_of_length_le (by omega)]
          · rw [if_neg hstop, if_neg hstop]
            exact ih _ (by omega)

lemma fetchLoop_no_pr (m : Option Nat) :
    ∀ (pages : List IssuePage) (acc : List Issue),
      (∀ i ∈ acc, i.pullRequestKey = false) →
      ∀ i ∈ fetchLoop m pages acc, i.pullRequestKey = false := by
  intro pages
  induction pages with
  | nil => intro acc hacc; simpa [fetchLoop] using hacc
  | cons pg rest ih =>
    intro acc hacc
    have hacc2 : ∀ i ∈ acc ++ pg.items.filter (fun i => !i.pullRequestKey),
        i.pullRequestKey = false := by
      intro i hi
      rcases List.mem_append.mp hi with h | h
      · exact hacc i h
      · have := (List.mem_filter.mp h).2
        simpa using this
    simp only [fetchLoop]
    split
    · exact hacc
    · split
      · exact hacc
      · split
        · intro i hi
          exact hacc2 i (List.mem_of_mem_take hi)
        · split
          · exact hacc2
          · exact ih _ hacc2

lemma pyJoin_singleton (sep s : String) : pyJoin sep [s] = s := rfl

lemma pyJoin_length_nl (g : List String) (hg : g ≠ []) :
    (pyJoin "\n" g).length + 1 = (g.map String.length).sum + g.length := by
  induction g with
  | nil => cases hg rfl
  | cons s rest ih =>
    cases rest with
    | nil => simp [pyJoin]
    | cons t rest' =>
      have h := ih (by simp)
      have hnl : ("\n" : String).length = 1 := rfl
      simp only [pyJoin, String.length_append, List.map_cons, List.sum_cons,
        List.length_cons, hnl] at h ⊢
      omega

/-- Every member of a list of naturals is at most the sum. -/
lemma le_sum_of_mem_nat {n : Nat} {l : List Nat} (h : n ∈ l) : n ≤ l.sum := by
  induction l with
  | nil => cases h
  | cons m rest ih =>
    simp only [List.mem_cons] at h
    rcases h with rfl | h
    · simp
    · simp only [List.sum_cons]
      exact Nat.le_trans (ih h) (Nat.le_add_left _ _)

/-- Structure of the greedy packing loop: the produced chunks are the
`'\n'`-joins of a partition of `cur ++ segs` into consecutive non-empty
groups, and any segment whose own estimate exceeds the budget sits alone in
its group. `curSize` must be the invariant running total of the current
chunk's estimates, and the current chunk must not already violate the
alone-ness property. -/
lemma chunkLoop_grouping (maxT : Nat) :
    ∀ (segs cur : List String) (curSize : Nat),
      curSize = (cur.map estimate_tokens).sum →
      (∀ s ∈ cur, maxT < estimate_tokens s → cur = [s]) →
      ∃ groups : List (List String),
        chunkLoop maxT segs cur curSize = groups.map (pyJoin "\n")
          ∧ groups.flatten = cur ++ segs
          ∧ (∀ g ∈ groups, g ≠ [])
          ∧ (∀ g ∈ groups, ∀ s ∈ g, maxT < estimate_tokens s → g = [s]) := by
  intro segs
  induction segs with
  | nil =>
    intro cur curSize hsize hcur
    cases cur with
    | nil => exact ⟨[], by simp [chunkLoop], by simp, by simp, by simp⟩
    | cons c cs =>
      refine ⟨[c :: cs], by simp [chunkLoop], by simp, by simp, ?_⟩
      intro g hg s hs hbig
      rw [List.mem_singleton.mp hg] at hs ⊢
      exact hcur s hs hbig
  | cons s rest ih =>
    intro cur curSize hsize hcur
    by_cases hb : (decide (maxT < curSize + estimate_tokens s) && !cur.isEmpty) = true
    · have hcurne : cur ≠ [] := by
        rcases Bool.and_eq_true_iff.mp hb with ⟨_, h2⟩
        simpa using h2
      obtain ⟨groups', hmap, hflat, hne, halone⟩ :=
        ih [s] (estimate_tokens s) (by simp)
          (by intro t ht _; rw [List.mem_singleton.mp ht])
      refine ⟨cur :: groups', ?_, ?_, ?_, ?_⟩
      · simp only [chunkLoop, hb, if_pos, List.map_cons]
        rw [hmap]
      · simp only [List.flatten_cons, hflat]
        simp
      · intro g hg
        rcases List.mem_cons.mp hg with rfl | hg
        · exact hcurne
        · exact hne g hg
      · intro g hg t ht hbig
        rcases List.mem_cons.mp hg with rfl | hg
        · exact hcur t ht hbig
        · exact halone g hg t ht hbig
    · have hnotb : ¬ (maxT < curSize + estimate_tokens s ∧ cur ≠ []) := by
        intro ⟨h1, h2⟩
        apply hb
        simp [h1, h2]
      have hsize' : curSize + estimate_tokens s
          = ((cur ++ [s]).map estimate_tokens).sum := by
        simp [hsize]
      have hcur' : ∀ t ∈ cur ++ [s], maxT < estimate_tokens t → cur ++ [s] = [t] := by
        intro t ht hbig
        by_cases hce : cur = []
        case pos =>
          subst hce
          simp only [List.nil_append, List.mem_singleton] at ht
          simp [ht]
        case neg =>
          have hle : curSize + estimate_tokens s ≤ maxT := by
            by_contra hgt
            exact hnotb ⟨by omega, hce⟩
          rcases List.mem_append.mp ht with hin | hin
          · have hmem : estimate_tokens t ≤ curSize := by
              rw [hsize]
              exact le_sum_of_mem_nat (List.mem_map_of_mem _ hin)
            omega
          · rw [List.mem_singleton.mp hin] at hbig
            omega
      obtain ⟨groups', hmap, hflat, hne, halone⟩ :=
        ih (cur ++ [s]) (curSize + estimate_tokens s) hsize' hcur'
      refine ⟨groups', ?_, ?_, hne, halone⟩
      · simp only [chunkLoop, hb, Bool.false_eq_true, if_false]
        exact hmap
      · rw [hflat, List.append_assoc]
        simp
  -- end

lemma sum_join_lengths (groups : List (List String)) (h : ∀ g ∈ groups, g ≠ []) :
    ((groups.map (pyJoin "\n")).map String.length).sum + groups.length
      = (groups.flatten.map String.length).sum + groups.flatten.length := by
  induction groups with
  | nil => simp
  | cons g gs ih =>
    have hg := pyJoin_length_nl g (h g (List.mem_cons_self g gs))
    have hgs := ih (fun g' hg' => h g' (List.mem_cons_of_mem _ hg'))
    simp only [List.map_cons, List.sum_cons, List.length_cons, List.flatten_cons,
      List.map_append, List.sum_append, List.length_append]
    omega

lemma hasSubstr_nil_needle : ∀ h : List Char, hasSubstr [] h = true
  | [] => rfl
  | _ :: _ => by simp [hasSubstr, List.isPrefixOf]

lemma hasSubstr_append_right (n b : List Char) (h : hasSubstr n b = true) :
    ∀ a : List Char, hasSubstr n (a ++ b) = true := by
  intro a
  induction a with
  | nil => simpa using h
  | cons c cs ih =>
    simp only [List.cons_append, hasSubstr, Bool.or_eq_true]
    exact Or.inr ih

lemma isPrefixOf_true_iff {l₁ l₂ : List Char} : l₁.isPrefixOf l₂ = true ↔ l₁ <+: l₂ :=
  List.isPrefixOf_iff_prefix

lemma hasSubstr_append_left (n : List Char) :
    ∀ a : List Char, hasSubstr n a = true → ∀ b : List Char, hasSubstr n (a ++ b) = true := by
  intro a
  induction a with
  | nil =>
    intro h b
    have : n = [] := by
      cases n with
      | nil => rfl
      | cons x xs => simp [hasSubstr] at h
    subst this
    exact hasSubstr_nil_needle b
  | cons c cs ih =>
    intro h b
    simp only [hasSubstr, Bool.or_eq_true] at h
    simp only [List.cons_append, hasSubstr, Bool.or_eq_true]
    rcases h with h | h
    · left
      rw [isPrefixOf_true_iff] at h ⊢
      exact h.trans (List.prefix_append _ _)
    · exact Or.inr (ih h b)

lemma hasSubstr_self : ∀ n : List Char, hasSubstr n n = true
  | [] => rfl
  | c :: cs => by
    simp only [hasSubstr, Bool.or_eq_true]
    exact Or.inl (by rw [isPrefixOf_true_iff])

lemma join_data_aux :
    ∀ (l : List String) (acc : String),
      (l.foldl (fun r s => r ++ s) acc).data = acc.data ++ (l.map String.data).flatten := by
  intro l
  induction l with
  | nil => intro acc; simp
  | cons s rest ih =>
    intro acc
    simp only [List.foldl_cons, ih (acc ++ s), String.data_append, List.map_cons,
      List.flatten_cons, List.append_assoc]

lemma join_data (l : List String) : (String.join l).data = (l.map String.data).flatten := by
  have h := join_data_aux l ""
  simpa [String.join] using h

/-- A substring of one of the parts is a substring of the `''.join` of all
the parts. -/
lemma hasSubstr_join_of_mem (sub : List Char) (parts : List String) (s : String)
    (hs : s ∈ parts) (h : hasSubstr sub s.data = true) :
    hasSubstr sub (String.join parts).data = true := by
  obtain ⟨l1, l2, rfl⟩ := List.append_of_mem hs
  rw [join_data]
  simp only [List.map_append, List.map_cons, List.flatten_append, List.flatten_cons]
  exact hasSubstr_append_right _ _
    (hasSubstr_append_left _ _ h ((l2.map String.data).flatten)) _

/-! Lemmas about the newline-collapsing scanner and stripping, toward the
properties of `clean_markdown_content`. -/

lemma hasSubstr_nl3_replicate {j : Nat} (hj : j ≤ 2) :
    hasSubstr ['\n', '\n', '\n'] (List.replicate j '\n') = false := by
  interval_cases j <;> decide

lemma hasSubstr_nl3_run_break {j : Nat} (hj : j ≤ 2) {c : Char} (hc : ¬ c = '\n')
    {X : List Char} (hX : hasSubstr ['\n', '\n', '\n'] X = false) :
    hasSubstr ['\n', '\n', '\n'] (List.replicate j '\n' ++ c :: X) = false := by
  have hbe : (('\n' : Char) == c) = false := beq_eq_false_iff_ne.mpr (Ne.symm hc)
  interval_cases j <;>
    simp [hasSubstr, List.isPrefixOf, hbe, hX, List.replicate_succ]

lemma collapseNLGo_noTriple :
    ∀ (cs : List Char) (n : Nat),
      hasSubstr ['\n', '\n', '\n'] (collapseNLGo n cs) = false := by
  intro cs
  induction cs with
  | nil =>
    intro n
    simp only [collapseNLGo, emitNLRun]
    exact hasSubstr_nl3_replicate (Nat.min_le_right n 2)
  | cons c cs ih =>
    intro n
    by_cases hc : c = '\n'
    · simp only [collapseNLGo, if_pos hc]
      exact ih (n + 1)
    · simp only [collapseNLGo, if_neg hc, emitNLRun]
      exact hasSubstr_nl3_run_break (Nat.min_le_right n 2) hc (ih 0)

lemma hasSubstr_nl3_big_run {n : Nat} (hn : 3 ≤ n) (l : List Char) :
    hasSubstr ['\n', '\n', '\n'] (List.replicate n '\n' ++ l) = true := by
  obtain ⟨k, rfl⟩ : ∃ k, n = 3 + k := ⟨n - 3, by omega⟩
  rw [List.replicate_add]
  simp [hasSubstr, List.isPrefixOf, List.replicate_succ]

lemma run_le_two_of_noTriple {n : Nat} {l : List Char}
    (h : hasSubstr ['\n', '\n', '\n'] (List.replicate n '\n' ++ l) = false) :
    n ≤ 2 := by
  by_contra hgt
  rw [hasSubstr_nl3_big_run (by omega) l] at h
  cases h

lemma collapseNLGo_eq_self :
    ∀ (cs : List Char) (n : Nat),
      hasSubstr ['\n', '\n', '\n'] (List.replicate n '\n' ++ cs) = false →
      collapseNLGo n cs = List.replicate n '\n' ++ cs := by
  intro cs
  induction cs with
  | nil =>
    intro n h
    rw [List.append_nil] at h ⊢
    have hn : n ≤ 2 := run_le_two_of_noTriple (by rw [List.append_nil]; exact h)
    simp only [collapseNLGo, emitNLRun, Nat.min_eq_left hn]
  | cons c cs ih =>
    intro n h
    by_cases hc : c = '\n'
    · subst hc
      have hswap : List.replicate (n + 1) '\n' ++ cs
          = List.replicate n '\n' ++ '\n' :: cs := by
        rw [List.replicate_add, List.append_assoc]
        rfl
      have h' : hasSubstr ['\n', '\n', '\n'] (List.replicate (n + 1) '\n' ++ cs)
          = false := by rw [hswap]; exact h
      simp only [collapseNLGo, if_pos rfl]
      rw [ih (n + 1) h', hswap]
      simp
    · have hn : n ≤ 2 := run_le_two_of_noTriple h
      have hcs : hasSubstr ['\n', '\n', '\n'] cs = false := by
        by_contra htr
        have htr' : hasSubstr ['\n', '\n', '\n'] cs = true := by
          cases hht : hasSubstr ['\n', '\n', '\n'] cs
          · exact absurd hht htr
          · rfl
        have hfull := hasSubstr_append_right _ _
          (hasSubstr_append_right _ _ htr' [c]) (List.replicate n '\n')
        simp only [List.singleton_append] at hfull
        rw [hfull] at h
        cases h
      simp only [collapseNLGo, if_neg hc, emitNLRun, Nat.min_eq_left hn]
      rw [ih 0 (by simpa using hcs)]
      simp

lemma dropTrailingWhile_prefix_orig (p : Char → Bool) :
    ∀ l : List Char, dropTrailingWhile p l <+: l := by
  intro l
  induction l with
  | nil => simp [dropTrailingWhile]
  | cons c cs ih =>
    simp only [dropTrailingWhile, List.foldr_cons] at ih ⊢
    split
    · exact List.nil_prefix
    · exact List.cons_prefix_cons.mpr ⟨rfl, ih⟩

lemma dropTrailingWhile_getLast (p : Char → Bool) :
    ∀ (l : List Char) (c : Char),
      (dropTrailingWhile p l).getLast? = some c → p c = false := by
  intro l
  induction l with
  | nil => intro c h; cases h
  | cons c0 cs ih =>
    intro c h
    simp only [dropTrailingWhile, List.foldr_cons] at h
    by_cases hcond : (List.foldr
        (fun c acc => if acc.isEmpty && p c then [] else c :: acc) [] cs).isEmpty && p c0
    · rw [if_pos hcond] at h
      cases h
    · rw [if_neg hcond] at h
      cases hdt : List.foldr (fun c acc => if acc.isEmpty && p c then [] else c :: acc) [] cs with
      | nil =>
        rw [hdt] at h hcond
        simp only [List.getLast?_singleton, Option.some.injEq] at h
        subst h
        simpa using hcond
      | cons d ds =>
        rw [hdt] at h
        rw [List.getLast?_cons_cons] at h
        have := ih c
        simp only [dropTrailingWhile, hdt] at this
        exact this h

lemma dropTrailingWhile_eq_self (p : Char → Bool) :
    ∀ l : List Char, (∀ c, l.getLast? = some c → p c = false) →
      dropTrailingWhile p l = l := by
  intro l
  induction l with
  | nil => intro _; rfl
  | cons c0 cs ih =>
    intro h
    cases cs with
    | nil =>
      have hp : p c0 = false := h c0 rfl
      simp [dropTrailingWhile, hp]
    | cons c1 cs' =>
      have hcs : dropTrailingWhile p (c1 :: cs') = c1 :: cs' := by
        apply ih
        intro c hc
        exact h c (by rw [List.getLast?_cons_cons]; exact hc)
      simp only [dropTrailingWhile, List.foldr_cons] at hcs ⊢
      rw [hcs]
      simp

lemma head?_dropWhile_false (p : Char → Bool) (l : List Char) (c : Char)
    (h : (l.dropWhile p).head? = some c) : p c = false := by
  have hx := List.head?_dropWhile_not p l
  rw [h] at hx
  exact hx

lemma dropWhile_eq_self_of_head (p : Char → Bool) (l : List Char)
    (h : ∀ c, l.head? = some c → p c = false) : l.dropWhile p = l := by
  cases l with
  | nil => rfl
  | cons a as =>
    rw [List.dropWhile_cons, h a rfl]
    simp

lemma head?_of_prefixed {l' l : List Char} (h : l' <+: l) {c : Char}
    (hc : l'.head? = some c) : l.head? = some c := by
  obtain ⟨t, rfl⟩ := h
  cases l' with
  | nil => cases hc
  | cons a as => simpa using hc

lemma hasSubstr_false_of_inner {n a b m : List Char}
    (h : hasSubstr n (a ++ (m ++ b)) = false) : hasSubstr n m = false := by
  cases hm : hasSubstr n m with
  | false => rfl
  | true =>
    rw [hasSubstr_append_right _ _ (hasSubstr_append_left _ _ hm b) a] at h
    cases h

/-- The decomposition `l = takeWhile ++ (strip l ++ rest)` exhibiting
`stripChars l` as an infix of `l`. -/
lemma stripChars_decomp (l : List Char) :
    ∃ a b, l = a ++ (stripChars l ++ b) := by
  obtain ⟨b, hb⟩ := dropTrailingWhile_prefix_orig pyIsSpace (l.dropWhile pyIsSpace)
  refine ⟨l.takeWhile pyIsSpace, b, ?_⟩
  conv_lhs => rw [← List.takeWhile_append_dropWhile (p := pyIsSpace) (l := l)]
  rw [← hb]
  rfl

lemma stripChars_head (l : List Char) (c : Char)
    (h : (stripChars l).head? = some c) : pyIsSpace c = false := by
  have hpre := dropTrailingWhile_prefix_orig pyIsSpace (l.dropWhile pyIsSpace)
  exact head?_dropWhile_false pyIsSpace l c (head?_of_prefixed hpre h)

lemma stripChars_getLast (l : List Char) (c : Char)
    (h : (stripChars l).getLast? = some c) : pyIsSpace c = false :=
  dropTrailingWhile_getLast pyIsSpace (l.dropWhile pyIsSpace) c h

lemma stripChars_eq_self (l : List Char)
    (hh : ∀ c, l.head? = some c → pyIsSpace c = false)
    (hl : ∀ c, l.getLast? = some c → pyIsSpace c = false) :
    stripChars l = l := by
  unfold stripChars
  rw [dropWhile_eq_self_of_head pyIsSpace l hh]
  exact dropTrailingWhile_eq_self pyIsSpace l hl

lemma padZero_length (w v : Nat) (h : (Nat.repr v).length ≤ w) :
    (padZero w v).length = w := by
  have hmk : (⟨List.replicate (w - (Nat.repr v).length) '0'⟩ : String).length
      = w - (Nat.repr v).length := by
    show (List.replicate (w - (Nat.repr v).length) '0').length = _
    exact List.length_replicate _ _
  simp only [padZero, String.length_append, hmk]
  omega

lemma strftimeYmdHM_length (dt : PyDateTime)
    (hy : (Nat.repr dt.year).length ≤ 4) (hmo : (Nat.repr dt.month).length ≤ 2)
    (hd : (Nat.repr dt.day).length ≤ 2) (hh : (Nat.repr dt.hour).length ≤ 2)
    (hmi : (Nat.repr dt.minute).length ≤ 2) :
    (strftimeYmdHM dt).length = 16 := by
  simp only [strftimeYmdHM, String.length_append,
    padZero_length 4 dt.year hy, padZero_length 2 dt.month hmo,
    padZero_length 2 dt.day hd, padZero_length 2 dt.hour hh,
    padZero_length 2 dt.minute hmi]
  decide

/-! ## Claims -/

/-- C5: for every list of `N` items and every positive chunk size `k`,
`split_into_chunks` succeeds and returns exactly `⌈N/k⌉ = (N + k - 1)/k`
groups, each of at most `k` items, whose in-order concatenation is the
original list. -/
theorem split_into_chunks_spec {α : Type} (items : List α) (k : Nat) (hk : 0 < k) :
    ∃ cs, split_into_chunks items k = some cs
      ∧ cs.length = (items.length + k - 1) / k
      ∧ (∀ c ∈ cs, c.length ≤ k)
      ∧ cs.flatten = items := by
  refine ⟨splitChunksGo k items.length items, ?_, ?_⟩
  · simp [split_into_chunks, Nat.pos_iff_ne_zero.mp hk]
  · exact splitChunksGo_spec k hk items.length items (Nat.le_refl _)

/-- Witness for C5 at a concrete input: five items, chunk size two. -/
theorem split_into_chunks_spec_witness :
    ∃ cs, split_into_chunks [1, 2, 3, 4, 5] 2 = some cs
      ∧ cs.length = (5 + 2 - 1) / 2
      ∧ (∀ c ∈ cs, c.length ≤ 2)
      ∧ cs.flatten = [1, 2, 3, 4, 5] := by
  simpa using split_into_chunks_spec [1, 2, 3, 4, 5] 2 (by decide)

/-- C10: `clean_markdown_content` is idempotent, its output has no leading
or trailing whitespace, and its output never contains three or more
consecutive newlines. -/
theorem clean_markdown_content_props (s : String) :
    clean_markdown_content (clean_markdown_content s) = clean_markdown_content s
    ∧ ((clean_markdown_content s).data.head?.all (fun c => !pyIsSpace c)) = true
    ∧ ((clean_markdown_content s).data.getLast?.all (fun c => !pyIsSpace c)) = true
    ∧ hasSubstr "\n\n\n".data (clean_markdown_content s).data = false := by
  have hbridge : ("\n\n\n" : String).data = ['\n', '\n', '\n'] := rfl
  by_cases hs : s = ""
  · subst hs
    exact ⟨rfl, rfl, rfl, rfl⟩
  · have hclean : clean_markdown_content s = ⟨stripChars (collapseNL s.data)⟩ := by
      unfold clean_markdown_content
      rw [if_neg hs]
    set y := stripChars (collapseNL s.data) with hy
    have hdata : (clean_markdown_content s).data = y := by rw [hclean]
    have hcol : hasSubstr ['\n', '\n', '\n'] (collapseNL s.data) = false :=
      collapseNLGo_noTriple s.data 0
    have hytriple : hasSubstr ['\n', '\n', '\n'] y = false := by
      obtain ⟨a, b, hab⟩ := stripChars_decomp (collapseNL s.data)
      exact hasSubstr_false_of_inner (n := ['\n', '\n', '\n']) (by rw [← hab]; exact hcol)
    have hyhead : ∀ c, y.head? = some c → pyIsSpace c = false :=
      fun c hc => stripChars_head _ c hc
    have hylast : ∀ c, y.getLast? = some c → pyIsSpace c = false :=
      fun c hc => stripChars_getLast _ c hc
    refine ⟨?_, ?_, ?_, ?_⟩
    · rw [hclean]
      by_cases hye : (⟨y⟩ : String) = ""
      · rw [hye]
        decide
      · unfold clean_markdown_content
        rw [if_neg hye]
        have hnoNl : collapseNL y = y := by
          have hgo := collapseNLGo_eq_self y 0 (by simpa using hytriple)
          simpa [collapseNL] using hgo
        show (⟨stripChars (collapseNL y)⟩ : String) = ⟨y⟩
        rw [hnoNl, stripChars_eq_self y hyhead hylast]
    · rw [hdata]
      cases hcy : y.head? with
      | none => rfl
      | some c => simp [Option.all, hyhead c hcy]
    · rw [hdata]
      cases hcy : y.getLast? with
      | none => rfl
      | some c => simp [Option.all, hylast c hcy]
    · rw [hdata, hbridge]
      exact hytriple

/-- Counterexample for C1 as stated: an issue whose `body` key is present
but empty (`""`) does NOT render the placeholder — `issue.get('body', ...)`
only falls back to the default when the key is absent, so the Description
section of this document is empty and the placeholder string appears
nowhere in it. -/
theorem issues_to_markdown_empty_body_no_placeholder :
    hasSubstr noDescription.data
      (issues_to_markdown (fun _ => none) (fun _ => []) "now"
        [⟨5, "T", "alice", "2024", none, [], [], some (some ""), 0, false⟩]
        "o" "r" false).data
      = false := by
  set_option maxRecDepth 40000 in decide

/-- C1 amended: the placeholder `No description provided.` is rendered
exactly when the issue record lacks the `body` key entirely
(`issue.get('body', 'No description provided.')` returns its default only
for a missing key); for every issue list containing such an issue, the
rendered document contains the placeholder string. -/
theorem issues_to_markdown_missing_body_placeholder
    (fromIso : String → Option PyDateTime) (commentsOf : Nat → List CommentRec)
    (nowStr owner repo : String) (withComments : Bool)
    (issues : List Issue) (issue : Issue)
    (hmem : issue ∈ issues) (hbody : issue.body = none) :
    hasSubstr noDescription.data
      (issues_to_markdown fromIso commentsOf nowStr issues owner repo withComments).data
      = true := by
  have hdesc :
      (cleanOptContent (pyGetBody issue.body noDescription) ++ "\n\n")
        ∈ issueParts fromIso commentsOf withComments issue := by
    simp [issueParts]
  unfold issues_to_markdown
  apply hasSubstr_join_of_mem _ _
    (cleanOptContent (pyGetBody issue.body noDescription) ++ "\n\n")
  · exact List.mem_append_right _ (List.mem_flatMap_of_mem hmem hdesc)
  · rw [hbody]
    have h2 : cleanOptContent (pyGetBody (none : Option (Option String)) noDescription)
        = noDescription := by decide
    rw [h2, String.data_append]
    exact hasSubstr_append_left _ _ (hasSubstr_self _) _

/-- Witness for C1 (amended) at a concrete input: a single issue with no
body key; the rendered document contains the placeholder. -/
theorem issues_to_markdown_missing_body_placeholder_witness :
    hasSubstr noDescription.data
      (issues_to_markdown (fun _ => none) (fun _ => []) "now"
        [⟨5, "T", "alice", "2024", none, [], [], none, 0, false⟩] "o" "r" false).data
      = true :=
  issues_to_markdown_missing_body_placeholder (fun _ => none) (fun _ => []) "now" "o" "r"
    false [⟨5, "T", "alice", "2024", none, [], [], none, 0, false⟩]
    ⟨5, "T", "alice", "2024", none, [], [], none, 0, false⟩ (by decide) rfl

/-- C6: when chunking yields `N > 1` chunks, `summarize_content` issues
exactly `N + 1` LLM calls: for each `i < N` the `i`-th call carries the
user prompt for chunk `i` annotated with its position `(Part i+1/N ...)`,
and the last call is the reduction over the `N` partial summaries (the
`llm` outputs for the chunk calls, in chunk order) joined with the
horizontal-rule delimiter; the reduction call's output is the returned
summary. -/
theorem summarize_content_calls (llm : String → String → String) (maxT : Nat)
    (content repo_info : String)
    (h : 1 < (chunk_content content maxT).length) :
    (summarize_content llm maxT content repo_info).2.length
        = (chunk_content content maxT).length + 1
    ∧ (∀ (i : Nat) (chunkI : String), (chunk_content content maxT)[i]? = some chunkI →
        (summarize_content llm maxT content repo_info).2[i]?
          = some ⟨create_system_prompt,
              create_user_prompt chunkI
                (partLabel (i + 1) (chunk_content content maxT).length repo_info)⟩)
    ∧ (summarize_content llm maxT content repo_info).2[(chunk_content content maxT).length]?
        = some ⟨create_system_prompt,
            finalReducePrompt repo_info (pyJoin "\n\n---\n\n"
              ((chunk_content content maxT).enum.map (fun p =>
                llm create_system_prompt
                  (create_user_prompt p.2
                    (partLabel (p.1 + 1) (chunk_content content maxT).length repo_info)))))⟩
    ∧ (summarize_content llm maxT content repo_info).1
        = llm create_system_prompt
            (finalReducePrompt repo_info (pyJoin "\n\n---\n\n"
              ((chunk_content content maxT).enum.map (fun p =>
                llm create_system_prompt
                  (create_user_prompt p.2
                    (partLabel (p.1 + 1) (chunk_content content maxT).length repo_info)))))) := by
  have hne : ¬ (chunk_content content maxT).length = 1 := by omega
  refine ⟨?_, ?_, ?_, ?_⟩
  · simp only [summarize_content, hne, if_false, List.length_append, List.length_map,
      List.enum_eq_enumFrom, List.enumFrom_length, List.length_cons, List.length_nil]
  · intro i chunkI hi
    have hilt : i < (chunk_content content maxT).length := by
      by_contra hge
      rw [List.getElem?_eq_none (by omega)] at hi
      cases hi
    simp only [summarize_content, hne, if_false]
    rw [List.getElem?_append_left
      (by simp [List.enum_eq_enumFrom, List.enumFrom_length, hilt])]
    simp only [List.getElem?_map, List.enum_eq_enumFrom, List.getElem?_enumFrom, hi,
      Option.map_some, Nat.zero_add]
    rfl
  · simp only [summarize_content, hne, if_false]
    rw [List.getElem?_append_right
      (by simp [List.enum_eq_enumFrom, List.enumFrom_length])]
    simp only [List.length_map, List.enum_eq_enumFrom, List.enumFrom_length,
      Nat.sub_self, List.getElem?_cons_zero, List.map_map]
    rfl
  · simp only [summarize_content, hne, if_false, List.map_map]
    rfl

/-- Witness for C6 at a concrete input: budget 4 forces two chunks, a
constant LLM oracle answers `"S"`; three calls result. -/
theorem summarize_content_calls_witness :
    (summarize_content (fun _ _ => "S") 4 "## Issue #3: aaaaaaaaaa\n## Issue #4: bb" "r").2.length
        = (chunk_content "## Issue #3: aaaaaaaaaa\n## Issue #4: bb" 4).length + 1
    ∧ (summarize_content (fun _ _ => "S") 4 "## Issue #3: aaaaaaaaaa\n## Issue #4: bb" "r").2.length
        = 3 :=
  ⟨(summarize_content_calls (fun _ _ => "S") 4 "## Issue #3: aaaaaaaaaa\n## Issue #4: bb" "r"
      (by decide)).1,
   by decide⟩

/-- C3: for every document whose estimate exceeds the budget, the greedy
packer partitions the (non-whitespace) issue segments into consecutive
non-empty groups, one chunk per group joined with `'\n'` — so no segment is
dropped or split — and every segment whose own estimate exceeds the budget
forms a group of its own: it is always alone in its chunk. -/
theorem chunk_content_oversized_alone (content : String) (maxT : Nat)
    (h : maxT < estimate_tokens content) :
    ∃ groups : List (List String),
      chunk_content content maxT = groups.map (pyJoin "\n")
        ∧ groups.flatten = issueSegments content
        ∧ (∀ g ∈ groups, g ≠ [])
        ∧ (∀ g ∈ groups, ∀ s ∈ g, maxT < estimate_tokens s → g = [s]) := by
  have hsplit : chunk_content content maxT
      = chunkLoop maxT (issueSegments content) [] 0 := by
    rw [chunk_content, if_neg (by omega)]
  obtain ⟨groups, h1, h2, h3, h4⟩ :=
    chunkLoop_grouping maxT (issueSegments content) [] 0 (by simp)
      (by intro s hs; cases hs)
  exact ⟨groups, by rw [hsplit, h1], by simpa using h2, h3, h4⟩

/-- Witness for C3 at a concrete input: budget 4, two segments, the first
estimating to 6 > 4, each alone in its chunk. -/
theorem chunk_content_oversized_alone_witness :
    ∃ groups : List (List String),
      chunk_content "## Issue #1: aaaaaaaaaa\n## Issue #2: bb" 4
          = groups.map (pyJoin "\n")
        ∧ groups.flatten = issueSegments "## Issue #1: aaaaaaaaaa\n## Issue #2: bb"
        ∧ (∀ g ∈ groups, g ≠ [])
        ∧ (∀ g ∈ groups, ∀ s ∈ g, 4 < estimate_tokens s → g = [s]) :=
  chunk_content_oversized_alone "## Issue #1: aaaaaaaaaa\n## Issue #2: bb" 4 (by decide)

/-- Counterexample for C2 as stated: chunks are built with
`'\n'.join(current_chunk)` over segments that were adjacent in the original
document, so each within-chunk boundary inserts one extra newline. On this
document of twelve 16-character issue blocks (estimate 48) with budget 24,
the two produced chunks have 101 characters each, total estimate
25 + 25 = 50 ≠ 48 — an excess that no repartition of the original text can
produce, since a sum of floors never exceeds the floor of the sum; the total
character count also grows from 192 to 202. -/
theorem chunk_content_estimate_not_preserved :
    ((chunk_content ("## Issue #10: ab## Issue #11: ab## Issue #12: ab## Issue #13: ab## Issue #14: ab## Issue #15: ab## Issue #16: ab## Issue #17: ab## Issue #18: ab## Issue #19: ab## Issue #20: ab## Issue #21: ab") 24).map estimate_tokens).sum = 50
    ∧ estimate_tokens ("## Issue #10: ab## Issue #11: ab## Issue #12: ab## Issue #13: ab## Issue #14: ab## Issue #15: ab## Issue #16: ab## Issue #17: ab## Issue #18: ab## Issue #19: ab## Issue #20: ab## Issue #21: ab") = 48
    ∧ ((chunk_content ("## Issue #10: ab## Issue #11: ab## Issue #12: ab## Issue #13: ab## Issue #14: ab## Issue #15: ab## Issue #16: ab## Issue #17: ab## Issue #18: ab## Issue #19: ab## Issue #20: ab## Issue #21: ab") 24).map String.length).sum = 202
    ∧ ("## Issue #10: ab## Issue #11: ab## Issue #12: ab## Issue #13: ab## Issue #14: ab## Issue #15: ab## Issue #16: ab## Issue #17: ab## Issue #18: ab## Issue #19: ab## Issue #20: ab## Issue #21: ab" : String).length = 192 := by
  set_option maxRecDepth 100000 in
  refine ⟨?_, by decide, ?_, by decide⟩ <;> decide

/-- C2 amended: when the document must be split, chunk boundaries fall only
at issue-segment boundaries (the chunks are the `'\n'`-joins of consecutive
groups of the split's non-whitespace segments, whose concatenation is
exactly that segment list), and the sizes balance as
`total chunk characters + number of chunks
 = total segment characters + number of segments`:
one newline is inserted per within-chunk boundary, and whitespace-only
segments are dropped, so the total estimated token size is preserved only up
to those adjustments, not exactly. -/
theorem chunk_content_boundaries_and_sizes (content : String) (maxT : Nat)
    (h : maxT < estimate_tokens content) :
    ∃ groups : List (List String),
      chunk_content content maxT = groups.map (pyJoin "\n")
        ∧ groups.flatten = issueSegments content
        ∧ ((chunk_content content maxT).map String.length).sum + groups.length
            = ((issueSegments content).map String.length).sum
                + (issueSegments content).length := by
  have hsplit : chunk_content content maxT
      = chunkLoop maxT (issueSegments content) [] 0 := by
    rw [chunk_content, if_neg (by omega)]
  obtain ⟨groups, h1, h2, h3, _⟩ :=
    chunkLoop_grouping maxT (issueSegments content) [] 0 (by simp)
      (by intro s hs; cases hs)
  have h2' : groups.flatten = issueSegments content := by simpa using h2
  refine ⟨groups, by rw [hsplit, h1], h2', ?_⟩
  have hsum := sum_join_lengths groups h3
  rw [hsplit, h1, hsum, h2']

/-- Witness for C2 (amended) at a concrete input: budget 7, three segments
of sizes 16, 16, 15 packed into chunks of sizes 16 and 32. -/
theorem chunk_content_boundaries_and_sizes_witness :
    ∃ groups : List (List String),
      chunk_content "## Issue #1: aa\n## Issue #2: bb\n## Issue #3: cc" 7
          = groups.map (pyJoin "\n")
        ∧ groups.flatten = issueSegments "## Issue #1: aa\n## Issue #2: bb\n## Issue #3: cc"
        ∧ ((chunk_content "## Issue #1: aa\n## Issue #2: bb\n## Issue #3: cc" 7).map
              String.length).sum + groups.length
            = ((issueSegments "## Issue #1: aa\n## Issue #2: bb\n## Issue #3: cc").map
                  String.length).sum
                + (issueSegments "## Issue #1: aa\n## Issue #2: bb\n## Issue #3: cc").length :=
  chunk_content_boundaries_and_sizes "## Issue #1: aa\n## Issue #2: bb\n## Issue #3: cc" 7
    (by decide)

/-- C8: `format_datetime` is total (the bare `except` returns the input on
any parse failure) and, when the ISO parser succeeds, renders the parsed
timestamp through `strftime('%Y-%m-%d %H:%M')`, a 16-character
`YYYY-MM-DD HH:MM` string whenever the fields have their usual digit
counts; when the parser fails, the original string is returned unchanged. -/
theorem format_datetime_total (fromIso : String → Option PyDateTime) (s : String) :
    (fromIso (s.replace "Z" "+00:00") = none → format_datetime fromIso s = s)
    ∧ (∀ dt, fromIso (s.replace "Z" "+00:00") = some dt →
        format_datetime fromIso s = strftimeYmdHM dt
          ∧ ((Nat.repr dt.year).length ≤ 4 → (Nat.repr dt.month).length ≤ 2 →
             (Nat.repr dt.day).length ≤ 2 → (Nat.repr dt.hour).length ≤ 2 →
             (Nat.repr dt.minute).length ≤ 2 →
             (format_datetime fromIso s).length = 16)) := by
  constructor
  · intro h
    unfold format_datetime
    rw [h]
  · intro dt h
    have heq : format_datetime fromIso s = strftimeYmdHM dt := by
      unfold format_datetime
      rw [h]
    refine ⟨heq, ?_⟩
    intro hy hmo hd hh hmi
    rw [heq]
    exact strftimeYmdHM_length dt hy hmo hd hh hmi

/-- Witness for C8 at concrete inputs: a parser that fails leaves
`"not-a-date"` unchanged; a parser that succeeds renders
`2024-03-07 15:42`. -/
theorem format_datetime_total_witness :
    format_datetime (fun _ => none) "not-a-date" = "not-a-date"
    ∧ format_datetime (fun _ => some ⟨2024, 3, 7, 15, 42⟩) "2024-03-07T15:42:00Z"
        = "2024-03-07 15:42"
    ∧ (format_datetime (fun _ => some ⟨2024, 3, 7, 15, 42⟩) "2024-03-07T15:42:00Z").length
        = 16 := by
  refine ⟨(format_datetime_total (fun _ => none) "not-a-date").1 rfl, ?_, ?_⟩
  · have h := ((format_datetime_total (fun _ => some ⟨2024, 3, 7, 15, 42⟩)
        "2024-03-07T15:42:00Z").2 ⟨2024, 3, 7, 15, 42⟩ rfl).1
    rw [h]
    decide
  · exact ((format_datetime_total (fun _ => some ⟨2024, 3, 7, 15, 42⟩)
        "2024-03-07T15:42:00Z").2 ⟨2024, 3, 7, 15, 42⟩ rfl).2
      (by decide) (by decide) (by decide) (by decide) (by decide)

/-- C7: a 403 response reporting `remaining = 0` and `reset = now + 5`,
with the clock read `tRead` taken at most one second after `now`, makes
`_make_request` sleep between 5 and 7 seconds (exclusive) and retry the
same URL with the same params. -/
theorem rate_limit_wait {P : Type} (url : String) (params : P) (now tRead : Int)
    (h1 : now ≤ tRead) (h2 : tRead ≤ now + 1) :
    ∃ s, makeRequestStep url params 403 (some 0) (some (now + 5)) tRead
        = .sleepThenRetry s url params
      ∧ 5 ≤ s ∧ s < 7 := by
  refine ⟨now + 5 - tRead + 1, ?_, by omega, by omega⟩
  have hpos : (0 : Int) < now + 5 - tRead + 1 := by omega
  simp [makeRequestStep, hpos]

/-- Witness for C7 at a concrete input: the clock still reads `now`. -/
theorem rate_limit_wait_witness :
    ∃ s, makeRequestStep "https://api.github.com/repos/o/r/issues" 1 403
        (some 0) (some 105) 100 = .sleepThenRetry s "https://api.github.com/repos/o/r/issues" 1
      ∧ 5 ≤ s ∧ s < 7 := by
  have h := rate_limit_wait "https://api.github.com/repos/o/r/issues" 1 100 100
    (by omega) (by omega)
  simpa using h

/-- C9: no object tagged as a pull request ever appears in the sequence
returned by `fetch_issues`, for any pages and any cap. -/
theorem fetch_issues_no_pull_requests (pages : List IssuePage) (m : Option Nat) :
    ∀ i ∈ fetch_issues pages m, i.pullRequestKey = false :=
  fetchLoop_no_pr m pages [] (by intro i h; cases h)

/-- Witness for C9 at a concrete input: a page mixing an issue and a pull
request; the surviving issue is in the result and carries no tag. -/
theorem fetch_issues_no_pull_requests_witness :
    (⟨1, "t", "a", "c", none, [], [], none, 0, false⟩ : Issue)
        ∈ fetch_issues
            [⟨false, [⟨1, "t", "a", "c", none, [], [], none, 0, false⟩,
                      ⟨2, "t", "a", "c", none, [], [], none, 0, true⟩], none⟩] none
      ∧ (⟨1, "t", "a", "c", none, [], [], none, 0, false⟩ : Issue).pullRequestKey = false :=
  ⟨by decide,
    fetch_issues_no_pull_requests
      [⟨false, [⟨1, "t", "a", "c", none, [], [], none, 0, false⟩,
                ⟨2, "t", "a", "c", none, [], [], none, 0, true⟩], none⟩] none
      _ (by decide)⟩

/-- Counterexample for C4 as stated: the claim quantifies over every
caller-supplied cap, but a supplied cap of `0` is falsy in Python
(`if max_issues and ...`, github_scraper.py:90), so the cap is ignored and
the returned sequence holds one issue, more than `maxCount = 0`. -/
theorem fetch_issues_zero_cap_ignored :
    (fetch_issues [⟨false, [⟨1, "t", "a", "c", none, [], [], none, 0, false⟩], none⟩]
        (some 0)).length = 1 := by decide

/-- C4 amended: for every positive cap `m`, `fetch_issues` stops paginating
once the accumulated count reaches the cap and returns the accumulated
sequence trimmed with `issues[:max_issues]` — observably, the capped result
is exactly the first `m` issues of the uncapped pagination, so it never
holds more than `m` issues, and it holds exactly `m` whenever the uncapped
pagination would have accumulated at least `m`. A cap of `0` is treated as
no cap by the truthiness test. -/
theorem fetch_issues_cap_take (pages : List IssuePage) (m : Nat) (hm : 0 < m) :
    fetch_issues pages (some m) = (fetch_issues pages none).take m
    ∧ (fetch_issues pages (some m)).length ≤ m
    ∧ (m ≤ (fetch_issues pages none).length → (fetch_issues pages (some m)).length = m) := by
  have htake : fetch_issues pages (some m) = (fetch_issues pages none).take m :=
    fetchLoop_cap_take m hm pages [] (by simpa using hm)
  refine ⟨htake, ?_, ?_⟩
  · rw [htake, List.length_take]
    exact Nat.min_le_left _ _
  · intro hge
    rw [htake, List.length_take]
    omega

/-- Witness for C4 (amended) at a concrete input: two pages of two issues
each, cap three; the uncapped run accumulates four issues, so the cap is
reached and the capped run returns exactly the first three. -/
theorem fetch_issues_cap_take_witness :
    (fetch_issues
          [⟨false, [⟨1, "t", "a", "c", none, [], [], none, 0, false⟩,
                    ⟨2, "t", "a", "c", none, [], [], none, 0, false⟩], some true⟩,
           ⟨false, [⟨3, "t", "a", "c", none, [], [], none, 0, false⟩,
                    ⟨4, "t", "a", "c", none, [], [], none, 0, false⟩], none⟩]
          (some 3)
        = (fetch_issues
            [⟨false, [⟨1, "t", "a", "c", none, [], [], none, 0, false⟩,
                      ⟨2, "t", "a", "c", none, [], [], none, 0, false⟩], some true⟩,
             ⟨false, [⟨3, "t", "a", "c", none, [], [], none, 0, false⟩,
                      ⟨4, "t", "a", "c", none, [], [], none, 0, false⟩], none⟩]
            none).take 3)
    ∧ 3 ≤ (fetch_issues
          [⟨false, [⟨1, "t", "a", "c", none, [], [], none, 0, false⟩,
                    ⟨2, "t", "a", "c", none, [], [], none, 0, false⟩], some true⟩,
           ⟨false, [⟨3, "t", "a", "c", none, [], [], none, 0, false⟩,
                    ⟨4, "t", "a", "c", none, [], [], none, 0, false⟩], none⟩]
          none).length
    ∧ (fetch_issues
          [⟨false, [⟨1, "t", "a", "c", none, [], [], none, 0, false⟩,
                    ⟨2, "t", "a", "c", none, [], [], none, 0, false⟩], some true⟩,
           ⟨false, [⟨3, "t", "a", "c", none, [], [], none, 0, false⟩,
                    ⟨4, "t", "a", "c", none, [], [], none, 0, false⟩], none⟩]
          (some 3)).length = 3 :=
  ⟨(fetch_issues_cap_take
      [⟨false, [⟨1, "t", "a", "c", none, [], [], none, 0, false⟩,
                ⟨2, "t", "a", "c", none, [], [], none, 0, false⟩], some true⟩,
       ⟨false, [⟨3, "t", "a", "c", none, [], [], none, 0, false⟩,
                ⟨4, "t", "a", "c", none, [], [], none, 0, false⟩], none⟩]
      3 (by decide)).1,
   by decide,
   (fetch_issues_cap_take
      [⟨false, [⟨1, "t", "a", "c", none, [], [], none, 0, false⟩,
                ⟨2, "t", "a", "c", none, [], [], none, 0, false⟩], some true⟩,
       ⟨false, [⟨3, "t", "a", "c", none, [], [], none, 0, false⟩,
                ⟨4, "t", "a", "c", none, [], [], none, 0, false⟩], none⟩]
      3 (by decide)).2.2 (by decide)⟩

end Shlurp
